import Mathlib

/-!
Verification of the KTJX ingestion & aggregation pipeline

Shallow embedding of the `IngestionService` (services/ingestion/src/services/ingestion.ts)
and the `AggregationService` (src/unnamed/part_001) of the Taskforce Mailer repository,
together with proofs settling the frozen claims about them.

Modelling conventions:
* Timestamps are epoch milliseconds, modelled as `Int` (JS `Date.getTime()`).
* JS floating-point statistics are modelled over `ℚ`; the only floor/ceil operations the
  code performs are on quantities where IEEE doubles are exact or where the rounding
  cannot change the result (see the comments at the individual definitions).
* Database tables are lists of rows; Prisma `update`/`upsert`/`deleteMany` become pure
  list transformations.  Storage operations themselves are modelled as reliable; the
  failure sources the claims talk about (connector fetches, token refresh, the
  per-organization aggregation body) are passed in as explicit `Except`/`Bool`-valued
  parameters.
* `async`/`await` sequencing is modelled by ordinary sequential evaluation, and a thrown
  JS error by an `Except.error` / `Option` value threaded through the control flow.
-/

/-! Section: Aggregation run skeleton (`AggregationService.runHourlyAggregations`)

`aggregateForOrganization` has a `try`/`catch` that logs and **rethrows** (part_001,
lines 88–91), so a per-organization failure propagates into the `for` loop of
`runHourlyAggregations` (lines 52–54), which has no per-iteration handler.  We model
the run abstractly over the list of organization ids and a predicate saying which
which organization aggregation bodies throw. -/

structure AggregationRunOutcome where
  /-- organizations whose `aggregateForOrganization` call ran and succeeded -/
  processedOrgs : List String
  /-- whether `clearAnalyticsCache` was reached -/
  cacheCleared : Bool
  /-- the organization whose failure aborted the run and was rethrown, if any -/
  error : Option String
deriving DecidableEq

/-- The `for (const org of organizations) { await this.aggregateForOrganization(...) }`
loop: processes organizations in order and aborts at the first one whose aggregation
throws (there is no per-iteration `try`/`catch`). Returns the successfully processed
prefix and the failing organization, if any. -/
def runOrgLoop (orgFails : String → Bool) : List String → List String × Option String
  | [] => ([], none)
  | org :: rest =>
    if orgFails org then ([], some org)
    else
      let tail := runOrgLoop orgFails rest
      (org :: tail.1, tail.2)

/-- Model of `AggregationService.runHourlyAggregations` (part_001, lines 39–65): run the
per-organization loop; only when every organization succeeded is
`clearAnalyticsCache` reached; an error is logged and rethrown. -/
def runHourlyAggregations (orgs : List String) (orgFails : String → Bool) :
    AggregationRunOutcome :=
  match runOrgLoop orgFails orgs with
  | (processed, none) => { processedOrgs := processed, cacheCleared := true, error := none }
  | (processed, some org) =>
    { processedOrgs := processed, cacheCleared := false, error := some org }

/-- The loop stops at the first failing organization: the processed organizations are
exactly the longest all-succeeding prefix, and the rethrown failure is the first
organization whose aggregation throws. -/
theorem runOrgLoop_eq (orgFails : String → Bool) (orgs : List String) :
    runOrgLoop orgFails orgs =
      (orgs.takeWhile (fun o => !orgFails o), (orgs.dropWhile (fun o => !orgFails o)).head?) := by
  induction orgs with
  | nil => rfl
  | cons org rest ih =>
    by_cases h : orgFails org = true
    · simp [runOrgLoop, h, List.takeWhile, List.dropWhile]
    · simp only [Bool.not_eq_true] at h
      simp [runOrgLoop, h, List.takeWhile, List.dropWhile, ih]

theorem head?_dropWhile_false {α : Type} (p : α → Bool) (l : List α) (x : α)
    (h : (l.dropWhile p).head? = some x) : p x = false := by
  induction l with
  | nil => simp [List.dropWhile] at h
  | cons a rest ih =>
    by_cases ha : p a = true
    · rw [List.dropWhile_cons_of_pos ha] at h
      exact ih h
    · rw [List.dropWhile_cons_of_neg ha] at h
      simp at h
      rw [← h]
      simpa using ha

theorem mem_takeWhile_sat {α : Type} (p : α → Bool) (l : List α) (x : α)
    (h : x ∈ l.takeWhile p) : p x = true := by
  induction l with
  | nil => simp [List.takeWhile] at h
  | cons a rest ih =>
    by_cases ha : p a = true
    · rw [List.takeWhile_cons_of_pos ha] at h
      rcases List.mem_cons.mp h with rfl | hm
      · exact ha
      · exact ih hm

    · rw [List.takeWhile_cons_of_neg ha] at h
      simp at h

/-- C1 counterexample. With organizations `["org1", "org2"]` where only
the aggregation for `"org1"` fails, the run does *not* process the remaining organization
`"org2"` and does *not* clear the analytics cache, contradicting the claim that a
per-organization failure is caught and the run still processes all remaining
organizations and clears the cache. -/
theorem aggregation_run_org_failure_not_isolated :
    "org2" ∉ (runHourlyAggregations ["org1", "org2"] (fun o => o == "org1")).processedOrgs
    ∧ (runHourlyAggregations ["org1", "org2"] (fun o => o == "org1")).cacheCleared = false
    ∧ (runHourlyAggregations ["org1", "org2"] (fun o => o == "org1")).error = some "org1" := by
  refine ⟨?_, rfl, rfl⟩
  decide

/-- C1 amended. A failure of `aggregateForOrganization` is logged and rethrown:
the run processes exactly the organizations that precede the first failing one, does
not reach the cache clear, and surfaces the first failing organization as its error;
only a run in which every organization succeeds processes them all and clears the
analytics cache.  (The rethrown error is then caught and logged by the hourly
`setInterval` callback in `startBackgroundJobs`, so the process itself survives.) -/
theorem aggregation_run_stops_at_first_failure (orgs : List String)
    (orgFails : String → Bool) :
    ((runHourlyAggregations orgs orgFails).error = none →
      (runHourlyAggregations orgs orgFails).processedOrgs = orgs
      ∧ (runHourlyAggregations orgs orgFails).cacheCleared = true
      ∧ ∀ org ∈ orgs, orgFails org = false)
    ∧ (∀ org, (runHourlyAggregations orgs orgFails).error = some org →
      orgFails org = true
      ∧ (runHourlyAggregations orgs orgFails).cacheCleared = false
      ∧ (runHourlyAggregations orgs orgFails).processedOrgs
          = orgs.takeWhile (fun o => !orgFails o)
      ∧ ∀ o ∈ (runHourlyAggregations orgs orgFails).processedOrgs, orgFails o = false) := by
  constructor
  · intro herr
    unfold runHourlyAggregations at *
    rw [runOrgLoop_eq] at herr ⊢
    rcases hd : (orgs.dropWhile (fun o => !orgFails o)).head? with _ | org
    · have hdrop : orgs.dropWhile (fun o => !orgFails o) = [] := by
        cases hcase : orgs.dropWhile (fun o => !orgFails o) with
        | nil => rfl
        | cons a t => rw [hcase] at hd; simp at hd
      have htake : orgs.takeWhile (fun o => !orgFails o) = orgs := by
        have := List.takeWhile_append_dropWhile (p := fun o => !orgFails o) (l := orgs)
        rw [hdrop, List.append_nil] at this
        exact this
      refine ⟨by simp [htake], rfl, ?_⟩
      intro org hmem
      have : (fun o => !orgFails o) org = true := by
        rw [← htake] at hmem
        exact mem_takeWhile_sat (fun o => !orgFails o) orgs org hmem
      simpa using this
    · rw [hd] at herr
      simp at herr
  · intro org herr
    unfold runHourlyAggregations at *
    rw [runOrgLoop_eq] at herr ⊢
    rcases hd : (orgs.dropWhile (fun o => !orgFails o)).head? with _ | org2
    · rw [hd] at herr
      simp at herr
    · rw [hd] at herr
      have horg : org2 = org := by simpa using herr
      subst horg
      have hfail : orgFails org2 = true := by
        have := head?_dropWhile_false (fun o => !orgFails o) orgs org2 hd
        simpa using this
      refine ⟨hfail, rfl, rfl, ?_⟩
      intro o hmem
      have : (fun o => !orgFails o) o = true := by
        refine mem_takeWhile_sat (fun o => !orgFails o) orgs o ?_
        simpa using hmem
      simpa using this

/-- C1 witness. Concrete run: every organization succeeds, so both are processed
and the cache is cleared; and with a failing first organization the cache stays stale. -/
theorem aggregation_run_stops_at_first_failure_witness :
    ((runHourlyAggregations ["a", "b"] (fun _ => false)).processedOrgs = ["a", "b"]
      ∧ (runHourlyAggregations ["a", "b"] (fun _ => false)).cacheCleared = true)
    ∧ (runHourlyAggregations ["a", "b"] (fun o => o == "a")).cacheCleared = false := by
  constructor
  · have h := (aggregation_run_stops_at_first_failure ["a", "b"] (fun _ => false)).1 rfl
    exact ⟨h.1, h.2.1⟩
  · exact ((aggregation_run_stops_at_first_failure ["a", "b"] (fun o => o == "a")).2
      "a" rfl).2.1

/-! Section: Generic timestamp-keyed stable sort infrastructure

`Array.prototype.sort` with comparator `(a, b) => a.timestamp - b.timestamp` is a
stable ascending sort (ES2019 guarantees stability); the Mathlib `List.insertionSort`
is likewise stable, so the two agree on every input. -/

def keyLe {α : Type} (k : α → Int) (a b : α) : Prop := k a ≤ k b

instance {α : Type} (k : α → Int) : DecidableRel (keyLe k) := fun a b =>
  (inferInstance : Decidable (k a ≤ k b))

instance {α : Type} (k : α → Int) : IsTotal α (keyLe k) := ⟨fun a b => le_total (k a) (k b)⟩

instance {α : Type} (k : α → Int) : IsTrans α (keyLe k) := ⟨fun _ _ _ => le_trans⟩

theorem mem_of_getLast?_eq {α : Type} {l : List α} {z : α} (h : l.getLast? = some z) :
    z ∈ l := by
  induction l with
  | nil => simp at h
  | cons a t ih =>
    cases t with
    | nil =>
      have : a = z := by simpa using h
      subst this
      exact List.mem_cons_self _ _
    | cons b t2 =>
      rw [List.getLast?_cons_cons] at h
      exact List.mem_cons_of_mem _ (ih h)

theorem sorted_keyLe_head_le {α : Type} (k : α → Int) {l : List α}
    (hs : List.Sorted (keyLe k) l) {h0 : α} (hh : l.head? = some h0) :
    ∀ x ∈ l, k h0 ≤ k x := by
  cases l with
  | nil => simp at hh
  | cons a t =>
    have ha : a = h0 := by simpa using hh
    subst ha
    intro x hx
    rcases List.mem_cons.mp hx with rfl | hxt
    · exact le_refl _
    · exact List.rel_of_sorted_cons hs x hxt

theorem sorted_keyLe_le_getLast {α : Type} (k : α → Int) {l : List α}
    (hs : List.Sorted (keyLe k) l) {z : α} (hz : l.getLast? = some z) :
    ∀ x ∈ l, k x ≤ k z := by
  induction l with
  | nil => simp at hz
  | cons a t ih =>
    cases t with
    | nil =>
      have : a = z := by simpa using hz
      subst this
      intro x hx
      have : x = a := by simpa using hx
      subst this
      exact le_refl _
    | cons b t2 =>
      rw [List.getLast?_cons_cons] at hz
      have hzm : z ∈ b :: t2 := mem_of_getLast?_eq hz
      intro x hx
      rcases List.mem_cons.mp hx with rfl | hxt
      · exact List.rel_of_sorted_cons hs z hzm
      · exact ih hs.of_cons hz x hxt

/-! Section: Ingestion service data model (`services/ingestion/src/services/ingestion.ts`) -/

/-- A canonical message as returned by the Gmail connector (`EmailMessage` from
`@taskforce/shared-types`), restricted to the fields the ingestion pipeline reads. -/
structure EmailMessage where
  messageId : String
  threadId : String
  subject : String
  fromEmail : String
  toEmails : List String
  timestamp : Int
  isRead : Bool
  isSent : Bool
deriving DecidableEq

/-- A `Mailbox` row (Prisma model): identity, encrypted credential pair, tenant ids,
activity flag and sync bookkeeping.  `updatedAt` is the last-update timestamp of the row
used by the retention sweep. -/
structure Mailbox where
  id : String
  email : String
  organizationId : String
  userId : String
  accessToken : String
  refreshToken : Option String
  tokenExpiry : Option Int
  isActive : Bool
  lastSyncAt : Option Int
  updatedAt : Int
deriving DecidableEq

def oneDayMs : Int := 24 * 60 * 60 * 1000

/-- Models JS `String.prototype.includes(needle)`: some tail of the receiver starts with
`needle`. -/
def strContainsSub (hay needle : String) : Bool :=
  hay.data.tails.any (fun t => needle.data.isPrefixOf t)

/-- The auth-failure classification in the catch block of `syncMailbox` (ingestion.ts,
line 146): `error.message?.includes(auth) || error.message?.includes(token)`,
quoting the two needle strings. -/
def isAuthErrorMessage (msg : String) : Bool :=
  strContainsSub msg "auth" || strContainsSub msg "token"

/-- Model of the `messages.forEach(...)` grouping into a JS `Map` keyed by `threadId`
(ingestion.ts, lines 283–291): iteration order of a JS `Map` is key-insertion
order, and each group accumulates its messages in encounter order. -/
def addToGroup (acc : List (String × List EmailMessage)) (m : EmailMessage) :
    List (String × List EmailMessage) :=
  if acc.any (fun p => p.1 == m.threadId) then
    acc.map (fun p => if p.1 == m.threadId then (p.1, p.2 ++ [m]) else p)
  else
    acc ++ [(m.threadId, [m])]

def groupByThread (messages : List EmailMessage) : List (String × List EmailMessage) :=
  messages.foldl addToGroup []

/-- Model of `threadMessages.sort((a, b) => a.timestamp.getTime() - b.timestamp.getTime())`
(ingestion.ts, lines 297–299), as a stable ascending sort on timestamps. -/
def sortByTimestamp (msgs : List EmailMessage) : List EmailMessage :=
  List.insertionSort (keyLe EmailMessage.timestamp) msgs

/-- Model of `IngestionService.isThreadResolved` (ingestion.ts, lines 417–426): the last
element of the passed array was sent by the user and is more than 24 hours old.
(The call site passes the array *after* the in-place sort, so the last element is
the chronologically last message.  On an empty array the source would fault; groups
are never empty, and the model returns `false` there.) -/
def isThreadResolved (now : Int) (messages : List EmailMessage) : Bool :=
  match messages.getLast? with
  | none => false
  | some lastMessage =>
    lastMessage.isSent && decide (now - lastMessage.timestamp > 24 * 60 * 60 * 1000)

/-- The `Thread` record upserted per group by `processThreads` (ingestion.ts,
lines 311–342): `responseTime` is in whole minutes (`Math.floor`). -/
structure ThreadUpsert where
  threadId : String
  subject : String
  messageCount : Nat
  lastMessageAt : Int
  responseTime : Option Int
  isResolved : Bool
deriving DecidableEq

/-- The per-group body of `processThreads` (ingestion.ts, lines 295–342): sort the
group ascending by timestamp, take first/last message, compute the whole-minute
response time for multi-message groups, and build the upserted record.  `none` only
on an empty group, which never occurs. -/
def buildThreadUpsert (now : Int) (threadId : String)
    (threadMessages : List EmailMessage) : Option ThreadUpsert :=
  let sortedMessages := sortByTimestamp threadMessages
  match sortedMessages.head?, sortedMessages.getLast? with
  | some firstMessage, some lastMessage =>
    let responseTime : Option Int :=
      if sortedMessages.length > 1 then
        some (Int.fdiv (lastMessage.timestamp - firstMessage.timestamp) (1000 * 60))
      else none
    some
      { threadId := threadId
        subject := firstMessage.subject
        messageCount := threadMessages.length
        lastMessageAt := lastMessage.timestamp
        responseTime := responseTime
        isResolved := isThreadResolved now sortedMessages }
  | _, _ => none

/-- Model of `IngestionService.processThreads` (ingestion.ts, lines 282–355), with the
storage upserts modelled as reliable: the list of thread records upserted. -/
def processThreads (now : Int) (messages : List EmailMessage) : List ThreadUpsert :=
  (groupByThread messages).filterMap (fun p => buildThreadUpsert now p.1 p.2)

/-! Section: `IngestionService.syncMailbox` and its mailbox-table effects -/

inductive SyncType where
  | incremental
  | full
deriving DecidableEq

/-- The fetch-window computation of `syncMailbox` (ingestion.ts, lines 111–122):
`full` always requests 30 days; `incremental` requests
`Math.max(Math.ceil((Date.now() - lastSync) / day), 1)` days where `lastSync`
defaults to `Date.now() - day` when the mailbox has no `lastSyncAt`.
(`Math.ceil` on the IEEE quotient agrees with exact rational `⌈·⌉` for all
epoch-millisecond magnitudes, the quotient being far below the 2⁵³ precision
boundary.) -/
def syncWindowDays (syncType : SyncType) (lastSyncAt : Option Int) (now : Int) : Int :=
  match syncType with
  | .full => 30
  | .incremental =>
    let lastSync := lastSyncAt.getD (now - oneDayMs)
    let daysSinceLastSync := Int.ceil (((now - lastSync : Int) : ℚ) / ((oneDayMs : Int) : ℚ))
    max daysSinceLastSync 1

structure SyncResult where
  messagesProcessed : Nat
  threadsProcessed : Nat
deriving DecidableEq

/-- Observable outcome of one `syncMailbox` call: the returned/thrown result, the
mailbox table afterwards, and the `days` argument passed to
`connector.getRecentMessages` (if the connector was consulted at all). -/
structure SyncOutput where
  result : Except String SyncResult
  mailboxes : List Mailbox
  fetchedDays : Option Int

def findMailbox (mailboxes : List Mailbox) (mailboxId : String) : Option Mailbox :=
  mailboxes.find? (fun mb => mb.id == mailboxId)

/-- Model of `prisma.mailbox.update({ where: { id }, data: ... })`. -/
def updateMailboxRow (mailboxes : List Mailbox) (mailboxId : String)
    (f : Mailbox → Mailbox) : List Mailbox :=
  mailboxes.map (fun mb => if mb.id == mailboxId then f mb else mb)

/-- Model of `IngestionService.syncMailbox` (ingestion.ts, lines 75–155).  The connector is
abstracted as `getRecentMessages : days → Except error messages`, covering both a
connector that cannot be initialized and a failing fetch; storage operations are
reliable, and the per-message/per-thread upsert loops never abort (their own
errors are caught and logged inside `processMessages`/`processThreads`).
Control flow: a missing mailbox throws `Mailbox not found`; an inactive mailbox
returns a zero result without touching the connector; otherwise the window is
computed, messages fetched, processed, and `lastSyncAt` set to `now`.  The
`catch` block deactivates the mailbox iff `isAuthErrorMessage` holds for the
message of the error, then rethrows. -/
def syncMailbox (mailboxes : List Mailbox) (mailboxId : String) (syncType : SyncType)
    (now : Int) (getRecentMessages : Int → Except String (List EmailMessage)) :
    SyncOutput :=
  match findMailbox mailboxes mailboxId with
  | none =>
    { result := .error "Mailbox not found", mailboxes := mailboxes, fetchedDays := none }
  | some mailbox =>
    if !mailbox.isActive then
      { result := .ok ⟨0, 0⟩, mailboxes := mailboxes, fetchedDays := none }
    else
      let days := syncWindowDays syncType mailbox.lastSyncAt now
      match getRecentMessages days with
      | .error e =>
        if isAuthErrorMessage e then
          { result := .error e
            mailboxes := updateMailboxRow mailboxes mailboxId
              (fun mb => { mb with isActive := false })
            fetchedDays := some days }
        else
          { result := .error e, mailboxes := mailboxes, fetchedDays := some days }
      | .ok messages =>
        { result := .ok ⟨messages.length, (processThreads now messages).length⟩
          mailboxes := updateMailboxRow mailboxes mailboxId
            (fun mb => { mb with lastSyncAt := some now })
          fetchedDays := some days }

/-- Model of the mailbox retention sweep of `IngestionService.performDailyCleanup` (ingestion.ts,
lines 357–368): `deleteMany({ where: { isActive: false, updatedAt: { lt: now - 30
days } } })`, i.e. keep exactly the rows that are active or recently updated.
(The aggregate sweep in the same method touches only `AnalyticsAggregate` rows.) -/
def performDailyCleanup (mailboxes : List Mailbox) (now : Int) : List Mailbox :=
  let cutoffDate := now - 30 * oneDayMs
  mailboxes.filter (fun mb => !(!mb.isActive && decide (mb.updatedAt < cutoffDate)))

/-! Section: `IngestionService.refreshMailboxToken` -/

structure TokenRefreshOutput where
  result : Bool
  mailboxes : List Mailbox

/-- Model of `IngestionService.refreshMailboxToken` (ingestion.ts, lines 390–415).  The whole
body is wrapped in `try`/`catch { return false }`: a missing cached connector
throws `Connector not found`, a failing `connector.refreshAccessToken()` throws,
and a failing `prisma.mailbox.update` throws (modelled by `updateSucceeds`, with a
failed update leaving the row unchanged); any of these yields `false`.  Only the
fully successful path stores the re-encrypted token and expiry and returns `true`.
`encrypt` abstracts `this.encryptString`. -/
def refreshMailboxToken (mailboxes : List Mailbox) (mailboxId : String)
    (connectorCached : Bool) (refreshAccessToken : Except String (String × Int))
    (encrypt : String → String) (updateSucceeds : Bool) : TokenRefreshOutput :=
  if !connectorCached then
    { result := false, mailboxes := mailboxes }
  else
    match refreshAccessToken with
    | .error _ => { result := false, mailboxes := mailboxes }
    | .ok newCredentials =>
      if updateSucceeds then
        { result := true
          mailboxes := updateMailboxRow mailboxes mailboxId (fun mb =>
            { mb with
              accessToken := encrypt newCredentials.1
              tokenExpiry := some newCredentials.2 }) }
      else
        { result := false, mailboxes := mailboxes }

/-! Section: `encryptString` / `decryptString` (ingestion.ts, lines 444–469)

`encryptString` generates `iv = crypto.randomBytes(16)` but then calls the
*deprecated* `crypto.createCipher(algorithm, key)`, which derives its key material
from the password argument alone (EVP_BytesToKey) — the fresh `iv` never reaches
the cipher and is only hex-concatenated in front of the output.  `decryptString`
splits on the colon, parses the IV segment into a buffer that is never used, and
deciphers the second segment with `crypto.createDecipher(algorithm, key)`.
We model the keyed cipher/decipher cores abstractly as string functions; with
`algorithm = aes-256-gcm` the real `decipher.final()` additionally *throws*
because no GCM auth tag is ever set — see the C9 analysis. -/

def encryptString (cipherCore : String → String → String) (key : String)
    (ivHex : String) (text : String) : String :=
  ivHex ++ ":" ++ cipherCore key text

/-- Models JS `String.prototype.split(sep)` for a single-character separator, over the
character list. -/
def splitOnChar (sep : Char) : List Char → List (List Char)
  | [] => [[]]
  | c :: rest =>
    let r := splitOnChar sep rest
    if c == sep then [] :: r
    else (c :: r.headD []) :: r.tail

/-- Model of `decryptString` (ingestion.ts, lines 456–469): split on the colon; `parts[0]` is
parsed into an IV buffer that is *never used afterwards*; only `parts[1]` is fed to
the decipher.  (When no colon occurs, `parts[1]` is `undefined` and the real code
faults in `decipher.update`; the model supplies `""`.) -/
def decryptString (decipherCore : String → String → String) (key : String)
    (encryptedText : String) : String :=
  let parts := splitOnChar ':' encryptedText.data
  let encrypted := String.mk (parts.getD 1 [])
  decipherCore key encrypted

/-! Section: Helper lemmas about the mailbox-table operations -/

theorem findMailbox_updateMailboxRow (mailboxes : List Mailbox) (mailboxId : String)
    (f : Mailbox → Mailbox) (hf : ∀ mb, (f mb).id = mb.id) :
    findMailbox (updateMailboxRow mailboxes mailboxId f) mailboxId
      = (findMailbox mailboxes mailboxId).map f := by
  induction mailboxes with
  | nil => rfl
  | cons mb rest ih =>
    simp only [findMailbox, updateMailboxRow, List.map_cons] at ih ⊢
    by_cases h : (mb.id == mailboxId) = true
    · have hfid : ((f mb).id == mailboxId) = true := by rw [hf mb]; exact h
      rw [if_pos h, List.find?_cons_of_pos (p := fun (x : Mailbox) => x.id == mailboxId) _ hfid,
        List.find?_cons_of_pos (p := fun (x : Mailbox) => x.id == mailboxId) _ h]
      rfl
    · rw [if_neg h, List.find?_cons_of_neg (p := fun (x : Mailbox) => x.id == mailboxId) _ h,
        List.find?_cons_of_neg (p := fun (x : Mailbox) => x.id == mailboxId) _ h]
      exact ih

theorem forall₂_self_map {α β : Type} (g : α → β) (R : α → β → Prop)
    (h : ∀ a, R a (g a)) : ∀ l : List α, List.Forall₂ R l (l.map g)
  | [] => List.Forall₂.nil
  | a :: t => List.Forall₂.cons (h a) (forall₂_self_map g R h t)

theorem forall₂_self_refl {α : Type} (R : α → α → Prop) (h : ∀ a, R a a) :
    ∀ l : List α, List.Forall₂ R l l
  | [] => List.Forall₂.nil
  | a :: t => List.Forall₂.cons (h a) (forall₂_self_refl R h t)

/-- Holds when `b` agrees with `a` on every `Mailbox` field except possibly `isActive` and
`lastSyncAt`. -/
def updatesOnlySyncFields (a b : Mailbox) : Prop :=
  b = { a with isActive := b.isActive, lastSyncAt := b.lastSyncAt }

/-- C8. Ingestion never deletes a mailbox while it is active: `syncMailbox`
leaves the mailbox table row-for-row in place, changing at most the `isActive` and
`lastSyncAt` fields of the addressed row; and the `performDailyCleanup` retention
sweep keeps exactly the rows that are not (inactive ∧ last updated more than
30 days ago) — in particular every active mailbox survives the sweep. -/
theorem ingestion_never_deletes_active_mailbox (mailboxes : List Mailbox)
    (mailboxId : String) (syncType : SyncType) (now : Int)
    (getRecentMessages : Int → Except String (List EmailMessage)) (now2 : Int) :
    List.Forall₂ updatesOnlySyncFields mailboxes
      (syncMailbox mailboxes mailboxId syncType now getRecentMessages).mailboxes
    ∧ (∀ mb, mb ∈ performDailyCleanup mailboxes now2 ↔
        mb ∈ mailboxes ∧ ¬(mb.isActive = false ∧ mb.updatedAt < now2 - 30 * oneDayMs))
    ∧ (∀ mb ∈ mailboxes, mb.isActive = true → mb ∈ performDailyCleanup mailboxes now2) := by
  have hrefl : ∀ mb : Mailbox, updatesOnlySyncFields mb mb := fun mb => rfl
  have hupd : ∀ (f : Mailbox → Mailbox), (∀ mb, updatesOnlySyncFields mb (f mb)) →
      List.Forall₂ updatesOnlySyncFields mailboxes (updateMailboxRow mailboxes mailboxId f) :=
    fun f hf => forall₂_self_map _ _
      (fun mb => by
        by_cases h : mb.id == mailboxId
        · simpa [h] using hf mb
        · simpa [h] using hrefl mb)
      mailboxes
  have hclean : ∀ mb, mb ∈ performDailyCleanup mailboxes now2 ↔
      mb ∈ mailboxes ∧ ¬(mb.isActive = false ∧ mb.updatedAt < now2 - 30 * oneDayMs) := by
    intro mb
    unfold performDailyCleanup
    simp only [List.mem_filter]
    cases hia : mb.isActive <;> simp [hia]
  refine ⟨?_, hclean, ?_⟩
  · unfold syncMailbox
    cases hfind : findMailbox mailboxes mailboxId with
    | none => exact forall₂_self_refl _ hrefl mailboxes
    | some mb =>
      by_cases hact : mb.isActive
      · simp only [hact, Bool.not_true, Bool.false_eq_true, if_false]
        cases hfetch : getRecentMessages (syncWindowDays syncType mb.lastSyncAt now) with
        | error e =>
          by_cases hauth : isAuthErrorMessage e
          · simp only [hauth, if_pos]
            exact hupd _ (fun mb => rfl)
          · simp only [hauth, Bool.false_eq_true, if_false]
            exact forall₂_self_refl _ hrefl mailboxes
        | ok messages => exact hupd _ (fun mb => rfl)
      · simp only [Bool.not_eq_true] at hact
        simp only [hact, Bool.not_false, if_true]
        exact forall₂_self_refl _ hrefl mailboxes
  · intro mb hm hact
    exact (hclean mb).mpr ⟨hm, fun h => by rw [hact] at h; cases h.1⟩

/-- A concrete active mailbox used by the witnesses below. -/
def mbWitness : Mailbox :=
  { id := "m1"
    email := "user@example.com"
    organizationId := "o1"
    userId := "u1"
    accessToken := "encrypted-access"
    refreshToken := none
    tokenExpiry := none
    isActive := true
    lastSyncAt := none
    updatedAt := 0 }

/-- C8 witness. The active mailbox `mbWitness` survives a retention sweep, and
a sync that fails with an auth error keeps the row (merely deactivated). -/
theorem ingestion_never_deletes_active_mailbox_witness :
    mbWitness ∈ performDailyCleanup [mbWitness] 99999999999
    ∧ List.Forall₂ updatesOnlySyncFields [mbWitness]
        (syncMailbox [mbWitness] "m1" .incremental 0
          (fun _ => .error "invalid token")).mailboxes := by
  constructor
  · exact (ingestion_never_deletes_active_mailbox [mbWitness] "m1" .incremental 0
      (fun _ => .error "invalid token") 99999999999).2.2 mbWitness
        (List.mem_singleton.mpr rfl) rfl
  · exact (ingestion_never_deletes_active_mailbox [mbWitness] "m1" .incremental 0
      (fun _ => .error "invalid token") 99999999999).1

/-- For an existing active mailbox, the connector is consulted with exactly the
window computed by `syncWindowDays`, whatever the fetch returns. -/
theorem syncMailbox_fetchedDays (mailboxes : List Mailbox) (mailboxId : String)
    (syncType : SyncType) (now : Int)
    (getRecentMessages : Int → Except String (List EmailMessage)) (mb : Mailbox)
    (hfind : findMailbox mailboxes mailboxId = some mb) (hact : mb.isActive = true) :
    (syncMailbox mailboxes mailboxId syncType now getRecentMessages).fetchedDays
      = some (syncWindowDays syncType mb.lastSyncAt now) := by
  unfold syncMailbox
  rw [hfind]
  simp only [hact, Bool.not_true, Bool.false_eq_true, if_false]
  cases hf : getRecentMessages (syncWindowDays syncType mb.lastSyncAt now) with
  | error e => by_cases hauth : isAuthErrorMessage e = true <;> simp [hauth]
  | ok messages => rfl

/-- C3. Whenever `syncMailbox` on an existing mailbox propagates an error: if the
error message is auth/token-classified the addressed mailbox row ends up with
`isActive = false`; for every other error the mailbox table is untouched and the
mailbox (which must have been active to reach a fallible step) still has
`isActive = true`. -/
theorem syncMailbox_auth_classification (mailboxes : List Mailbox) (mailboxId : String)
    (syncType : SyncType) (now : Int)
    (getRecentMessages : Int → Except String (List EmailMessage)) (e : String)
    (mb : Mailbox) (hfind : findMailbox mailboxes mailboxId = some mb)
    (herr : (syncMailbox mailboxes mailboxId syncType now getRecentMessages).result
      = .error e) :
    (isAuthErrorMessage e = true →
      findMailbox (syncMailbox mailboxes mailboxId syncType now
          getRecentMessages).mailboxes mailboxId = some { mb with isActive := false })
    ∧ (isAuthErrorMessage e = false →
      (syncMailbox mailboxes mailboxId syncType now getRecentMessages).mailboxes
        = mailboxes
      ∧ mb.isActive = true) := by
  unfold syncMailbox at herr ⊢
  rw [hfind] at herr ⊢
  by_cases hact : mb.isActive = true
  · simp only [hact, Bool.not_true, Bool.false_eq_true, if_false] at herr ⊢
    cases hfetch : getRecentMessages (syncWindowDays syncType mb.lastSyncAt now) with
    | ok messages =>
      rw [hfetch] at herr
      simp at herr
    | error e2 =>
      rw [hfetch] at herr
      by_cases hauth : isAuthErrorMessage e2 = true
      · simp only [hauth, if_true] at herr ⊢
        have he : e2 = e := by simpa using herr
        subst he
        constructor
        · intro _
          rw [findMailbox_updateMailboxRow mailboxes mailboxId
            (fun mb => { mb with isActive := false }) (fun mb => rfl), hfind]
          rfl
        · intro hfalse
          rw [hfalse] at hauth
          simp at hauth
      · have hauthf : isAuthErrorMessage e2 = false := by simpa using hauth
        simp only [hauthf, Bool.false_eq_true, if_false] at herr ⊢
        have he : e2 = e := by simpa using herr
        subst he
        constructor
        · intro htrue
          rw [htrue] at hauthf
          simp at hauthf
        · exact fun _ => ⟨trivial, trivial⟩
  · have hact2 : mb.isActive = false := by simpa using hact
    simp only [hact2, Bool.not_false, if_true] at herr
    simp at herr

/-- C3 witness. A token-classified failure deactivates the concrete mailbox;
a network failure leaves the table unchanged and the mailbox active. -/
theorem syncMailbox_auth_classification_witness :
    findMailbox (syncMailbox [mbWitness] "m1" .incremental 0
        (fun _ => .error "invalid token")).mailboxes "m1"
      = some { mbWitness with isActive := false }
    ∧ ((syncMailbox [mbWitness] "m1" .incremental 0
        (fun _ => .error "connection reset")).mailboxes = [mbWitness]
      ∧ mbWitness.isActive = true) := by
  constructor
  · exact (syncMailbox_auth_classification [mbWitness] "m1" .incremental 0
      (fun _ => .error "invalid token") "invalid token" mbWitness rfl rfl).1 rfl
  · exact (syncMailbox_auth_classification [mbWitness] "m1" .incremental 0
      (fun _ => .error "connection reset") "connection reset" mbWitness rfl rfl).2 rfl

/-- C4. For an existing active mailbox, `syncMailbox` asks the connector for
exactly 30 days in `full` mode; in `incremental` mode for
`max 1 ⌈(now − lastSyncAt) / 1 day⌉` days, and for exactly 1 day when the mailbox
has no prior `lastSyncAt`. -/
theorem syncMailbox_fetch_window (mailboxes : List Mailbox) (mailboxId : String)
    (now : Int) (getRecentMessages : Int → Except String (List EmailMessage))
    (mb : Mailbox) (hfind : findMailbox mailboxes mailboxId = some mb)
    (hact : mb.isActive = true) :
    (syncMailbox mailboxes mailboxId .full now getRecentMessages).fetchedDays = some 30
    ∧ (∀ t, mb.lastSyncAt = some t →
      (syncMailbox mailboxes mailboxId .incremental now getRecentMessages).fetchedDays
        = some (max 1 (Int.ceil (((now - t : Int) : ℚ) / ((oneDayMs : Int) : ℚ)))))
    ∧ (mb.lastSyncAt = none →
      (syncMailbox mailboxes mailboxId .incremental now getRecentMessages).fetchedDays
        = some 1) := by
  refine ⟨?_, ?_, ?_⟩
  · rw [syncMailbox_fetchedDays mailboxes mailboxId .full now getRecentMessages mb
      hfind hact]
    rfl
  · intro t ht
    rw [syncMailbox_fetchedDays mailboxes mailboxId .incremental now getRecentMessages mb
      hfind hact]
    unfold syncWindowDays
    rw [ht]
    simp only [Option.getD_some]
    rw [max_comm]
  · intro ht
    rw [syncMailbox_fetchedDays mailboxes mailboxId .incremental now getRecentMessages mb
      hfind hact]
    unfold syncWindowDays
    rw [ht]
    simp only [Option.getD_none, sub_sub_cancel]
    norm_num [oneDayMs]

/-- C4 witness. On a concrete never-synced active mailbox the incremental
window is 1 day and the full window 30 days. -/
theorem syncMailbox_fetch_window_witness :
    (syncMailbox [mbWitness] "m1" .full 86400000 (fun _ => .ok [])).fetchedDays = some 30
    ∧ (syncMailbox [mbWitness] "m1" .incremental 86400000
        (fun _ => .ok [])).fetchedDays = some 1 := by
  have h := syncMailbox_fetch_window [mbWitness] "m1" 86400000 (fun _ => .ok [])
    mbWitness rfl rfl
  exact ⟨h.1, h.2.2 rfl⟩

/-- C10. `refreshMailboxToken` is total (the model returns a `Bool`, mirroring the
all-enclosing `try`/`catch` of the source): it returns `true` exactly when a connector is
cached for the mailbox, the token refresh succeeds, and the mailbox update succeeds;
and when it fails because no connector was cached or because the refresh itself
failed, the mailbox table — in particular the stored `accessToken`/`tokenExpiry` —
is left unchanged. -/
theorem refreshMailboxToken_contract (mailboxes : List Mailbox) (mailboxId : String)
    (connectorCached : Bool) (refreshResult : Except String (String × Int))
    (encrypt : String → String) (updateSucceeds : Bool) :
    ((refreshMailboxToken mailboxes mailboxId connectorCached refreshResult encrypt
        updateSucceeds).result = true
      ↔ connectorCached = true ∧ (∃ c, refreshResult = .ok c) ∧ updateSucceeds = true)
    ∧ (connectorCached = false →
      (refreshMailboxToken mailboxes mailboxId connectorCached refreshResult encrypt
        updateSucceeds).mailboxes = mailboxes)
    ∧ (∀ e, refreshResult = .error e →
      (refreshMailboxToken mailboxes mailboxId connectorCached refreshResult encrypt
        updateSucceeds).mailboxes = mailboxes) := by
  cases connectorCached with
  | false =>
    refine ⟨?_, fun _ => rfl, fun e _ => rfl⟩
    simp [refreshMailboxToken]
  | true =>
    cases refreshResult with
    | error e0 =>
      refine ⟨?_, by simp, fun e he => rfl⟩
      simp [refreshMailboxToken]
    | ok c0 =>
      cases updateSucceeds with
      | false =>
        refine ⟨?_, by simp, by simp⟩
        simp [refreshMailboxToken]
      | true =>
        refine ⟨?_, by simp, by simp⟩
        simp only [refreshMailboxToken, Bool.not_true, Bool.false_eq_true, if_false]
        simp

/-- C10 witness. Concrete instances: full success returns `true`; a missing
connector and a failed refresh both leave the table unchanged. -/
theorem refreshMailboxToken_contract_witness :
    (refreshMailboxToken [mbWitness] "m1" true (.ok ("newTok", 99)) id true).result = true
    ∧ (refreshMailboxToken [mbWitness] "m1" false (.ok ("newTok", 99)) id true).mailboxes
        = [mbWitness]
    ∧ (refreshMailboxToken [mbWitness] "m1" true (.error "refresh failed") id
        false).mailboxes = [mbWitness] := by
  refine ⟨?_, ?_, ?_⟩
  · exact (refreshMailboxToken_contract [mbWitness] "m1" true (.ok ("newTok", 99)) id
      true).1.mpr ⟨rfl, ⟨("newTok", 99), rfl⟩, rfl⟩
  · exact (refreshMailboxToken_contract [mbWitness] "m1" false (.ok ("newTok", 99)) id
      true).2.1 rfl
  · exact (refreshMailboxToken_contract [mbWitness] "m1" true (.error "refresh failed")
      id false).2.2 "refresh failed" rfl

/-! Section: C9: the encrypt/decrypt round trip -/

theorem splitOnChar_append_sep (sep : Char) (a b : List Char) (ha : sep ∉ a) :
    splitOnChar sep (a ++ sep :: b) = a :: splitOnChar sep b := by
  induction a with
  | nil => simp [splitOnChar]
  | cons c t ih =>
    have hc : (c == sep) = false := by
      have : ¬ c = sep := fun hcs => ha (by rw [hcs]; exact List.mem_cons_self _ _)
      simpa using this
    have ht : sep ∉ t := fun hm => ha (List.mem_cons_of_mem _ hm)
    simp only [List.cons_append, splitOnChar, hc, Bool.false_eq_true, if_false]
    have happ : t.append (sep :: b) = t ++ sep :: b := rfl
    rw [happ, ih ht]
    rfl

/-- C9 supporting theorem. The IV that `encryptString` freshly generates and
embeds in the payload is *ignored* by `decryptString`: decrypting payloads that
differ only in the IV segment yields identical results, whatever the keyed
cipher/decipher cores do.  (`crypto.createCipher` derives its key material from the
password alone, so the generated IV never influences encryption either; and with
`aes-256-gcm` the `createDecipher`-based decipher lacks the auth tag, so the real
`decipher.final()` throws — the claimed round trip `decrypt ∘ encrypt = id` fails at
every plaintext.) -/
theorem decryptString_ignores_embedded_iv
    (cipherCore decipherCore : String → String → String) (key text : String)
    (ivHex1 ivHex2 : String) (h1 : ':' ∉ ivHex1.data) (h2 : ':' ∉ ivHex2.data) :
    decryptString decipherCore key (encryptString cipherCore key ivHex1 text)
      = decryptString decipherCore key (encryptString cipherCore key ivHex2 text) := by
  unfold decryptString encryptString
  have hdata : ∀ iv : String, (iv ++ ":" ++ cipherCore key text).data
      = iv.data ++ ':' :: (cipherCore key text).data := by
    intro iv
    rw [String.data_append, String.data_append]
    have hcolon : (":".data) = [':'] := rfl
    rw [hcolon, List.append_assoc]
    rfl
  rw [hdata ivHex1, hdata ivHex2, splitOnChar_append_sep _ _ _ h1,
    splitOnChar_append_sep _ _ _ h2]
  rfl

/-- C9 witness. Two payloads that differ only in their embedded IV decrypt to
the same string. -/
theorem decryptString_ignores_embedded_iv_witness :
    decryptString (fun _ c => c) "key-material"
        (encryptString (fun _ t => t) "key-material" "00ff" "plaintext")
      = decryptString (fun _ c => c) "key-material"
        (encryptString (fun _ t => t) "key-material" "ab12" "plaintext") :=
  decryptString_ignores_embedded_iv (fun _ t => t) (fun _ c => c) "key-material"
    "plaintext" "00ff" "ab12" (by decide) (by decide)

/-! Section: C5/C6: thread grouping, sorting, and the upserted record -/

theorem groupByThread_groups_nonempty (messages : List EmailMessage) :
    ∀ p ∈ groupByThread messages, p.2 ≠ [] := by
  suffices h : ∀ (msgs : List EmailMessage) (acc : List (String × List EmailMessage)),
      (∀ p ∈ acc, p.2 ≠ []) → ∀ p ∈ msgs.foldl addToGroup acc, p.2 ≠ [] by
    exact fun p hp => h messages [] (by simp) p hp
  intro msgs
  induction msgs with
  | nil => exact fun acc hacc p hp => hacc p hp
  | cons m rest ih =>
    intro acc hacc p hp
    refine ih (addToGroup acc m) ?_ p hp
    intro q hq
    unfold addToGroup at hq
    by_cases hc : acc.any (fun p => p.1 == m.threadId) = true
    · rw [if_pos hc] at hq
      rcases List.mem_map.mp hq with ⟨q0, hq0, rfl⟩
      by_cases h0 : (q0.1 == m.threadId) = true
      · rw [if_pos h0]
        simp
      · rw [if_neg h0]
        exact hacc q0 hq0
    · rw [if_neg hc] at hq
      rcases List.mem_append.mp hq with hq1 | hq2
      · exact hacc q hq1
      · have hq3 : q = (m.threadId, [m]) := by simpa using hq2
        rw [hq3]
        simp

theorem sortByTimestamp_perm (msgs : List EmailMessage) :
    (sortByTimestamp msgs).Perm msgs :=
  List.perm_insertionSort _ _

theorem sortByTimestamp_sorted (msgs : List EmailMessage) :
    List.Sorted (keyLe EmailMessage.timestamp) (sortByTimestamp msgs) :=
  List.sorted_insertionSort _ _

theorem exists_getLast?_of_ne_nil {α : Type} {l : List α} (h : l ≠ []) :
    ∃ z, l.getLast? = some z := by
  induction l with
  | nil => exact absurd rfl h
  | cons a t ih =>
    cases t with
    | nil => exact ⟨a, rfl⟩
    | cons b t2 =>
      rcases ih (by simp) with ⟨z, hz⟩
      exact ⟨z, by rw [List.getLast?_cons_cons]; exact hz⟩

theorem buildThreadUpsert_eq (now : Int) (tid : String) (g : List EmailMessage)
    (first : EmailMessage) (rest : List EmailMessage) (lastM : EmailMessage)
    (hs : sortByTimestamp g = first :: rest)
    (hlast : (first :: rest).getLast? = some lastM) :
    buildThreadUpsert now tid g = some
      { threadId := tid
        subject := first.subject
        messageCount := g.length
        lastMessageAt := lastM.timestamp
        responseTime := if (first :: rest).length > 1 then
            some (Int.fdiv (lastM.timestamp - first.timestamp) (1000 * 60)) else none
        isResolved := isThreadResolved now (first :: rest) } := by
  unfold buildThreadUpsert
  rw [hs]
  simp only [List.head?_cons, hlast]

/-- C5. The upserted record of every thread group has `responseTime = null` when the
group has exactly one message, and otherwise the whole-minute difference between the
earliest and latest message timestamps of the group (the first and last elements of the
ascending-sorted group). -/
theorem processThreads_responseTime (now : Int) (messages : List EmailMessage)
    (tid : String) (g : List EmailMessage) (hg : (tid, g) ∈ groupByThread messages) :
    ∃ rec, buildThreadUpsert now tid g = some rec
      ∧ (g.length = 1 → rec.responseTime = none)
      ∧ (1 < g.length → ∃ tmin tmax,
          (∃ m ∈ g, m.timestamp = tmin) ∧ (∃ m ∈ g, m.timestamp = tmax)
          ∧ (∀ m ∈ g, tmin ≤ m.timestamp ∧ m.timestamp ≤ tmax)
          ∧ rec.responseTime = some (Int.fdiv (tmax - tmin) (1000 * 60))) := by
  have hne : g ≠ [] := groupByThread_groups_nonempty messages (tid, g) hg
  cases hs : sortByTimestamp g with
  | nil =>
    exact absurd (List.Perm.eq_nil (hs ▸ (sortByTimestamp_perm g).symm)) hne
  | cons first rest =>
    rcases exists_getLast?_of_ne_nil (l := first :: rest) (by simp) with ⟨lastM, hlast⟩
    have hlen : (first :: rest).length = g.length := by
      rw [← hs]
      exact (sortByTimestamp_perm g).length_eq
    have hmemg : ∀ m ∈ (first :: rest), m ∈ g := by
      intro m hm
      exact (sortByTimestamp_perm g).mem_iff.mp (hs ▸ hm)
    have hmems : ∀ m ∈ g, m ∈ (first :: rest) := by
      intro m hm
      exact hs ▸ (sortByTimestamp_perm g).mem_iff.mpr hm
    have hsorted : List.Sorted (keyLe EmailMessage.timestamp) (first :: rest) :=
      hs ▸ sortByTimestamp_sorted g
    refine ⟨_, buildThreadUpsert_eq now tid g first rest lastM hs hlast, ?_, ?_⟩
    · intro h1
      have : ¬ (first :: rest).length > 1 := by rw [hlen, h1]; simp
      rw [if_neg this]
    · intro h1
      refine ⟨first.timestamp, lastM.timestamp,
        ⟨first, hmemg first (List.mem_cons_self _ _), rfl⟩,
        ⟨lastM, hmemg lastM (mem_of_getLast?_eq hlast), rfl⟩, ?_, ?_⟩
      · intro m hm
        exact ⟨sorted_keyLe_head_le _ hsorted rfl m (hmems m hm),
          sorted_keyLe_le_getLast _ hsorted hlast m (hmems m hm)⟩
      · have : (first :: rest).length > 1 := by rw [hlen]; exact h1
        rw [if_pos this]

/-- C6. The upserted record of every thread group has `resolved = true` iff the
chronologically last message of the group (the last element of the ascending-sorted
group, whose timestamp bounds that of every member) has `isSent = true` and lies more than
24 hours before the current time. -/
theorem processThreads_resolved (now : Int) (messages : List EmailMessage)
    (tid : String) (g : List EmailMessage) (hg : (tid, g) ∈ groupByThread messages) :
    ∃ rec lastM, buildThreadUpsert now tid g = some rec
      ∧ (sortByTimestamp g).getLast? = some lastM
      ∧ lastM ∈ g ∧ (∀ m ∈ g, m.timestamp ≤ lastM.timestamp)
      ∧ (rec.isResolved = true ↔
          lastM.isSent = true ∧ 24 * 60 * 60 * 1000 < now - lastM.timestamp) := by
  have hne : g ≠ [] := groupByThread_groups_nonempty messages (tid, g) hg
  cases hs : sortByTimestamp g with
  | nil =>
    exact absurd (List.Perm.eq_nil (hs ▸ (sortByTimestamp_perm g).symm)) hne
  | cons first rest =>
    rcases exists_getLast?_of_ne_nil (l := first :: rest) (by simp) with ⟨lastM, hlast⟩
    have hmemg : ∀ m ∈ (first :: rest), m ∈ g := by
      intro m hm
      exact (sortByTimestamp_perm g).mem_iff.mp (hs ▸ hm)
    have hmems : ∀ m ∈ g, m ∈ (first :: rest) := by
      intro m hm
      exact hs ▸ (sortByTimestamp_perm g).mem_iff.mpr hm
    have hsorted : List.Sorted (keyLe EmailMessage.timestamp) (first :: rest) :=
      hs ▸ sortByTimestamp_sorted g
    refine ⟨_, lastM, buildThreadUpsert_eq now tid g first rest lastM hs hlast,
      hs ▸ hlast, hmemg lastM (mem_of_getLast?_eq hlast), ?_, ?_⟩
    · intro m hm
      exact sorted_keyLe_le_getLast _ hsorted hlast m (hmems m hm)
    · show isThreadResolved now (first :: rest) = true ↔ _
      unfold isThreadResolved
      rw [hlast]
      rw [Bool.and_eq_true]
      simp only [decide_eq_true_eq]

/-- Concrete received first message of a two-message thread. -/
def msgEarly : EmailMessage :=
  { messageId := "g1"
    threadId := "t1"
    subject := "Hello"
    fromEmail := "alice@example.com"
    toEmails := ["me@example.com"]
    timestamp := 0
    isRead := true
    isSent := false }

/-- Concrete sent reply 150 000 ms (2.5 minutes) later. -/
def msgLate : EmailMessage :=
  { messageId := "g2"
    threadId := "t1"
    subject := "Re: Hello"
    fromEmail := "me@example.com"
    toEmails := ["alice@example.com"]
    timestamp := 150000
    isRead := true
    isSent := true }

/-- C5 witness. The two-message group `[msgEarly, msgLate]` (its thread id is
the only one in `groupByThread`) gets a floor-minute response time. -/
theorem processThreads_responseTime_witness :
    ∃ rec, buildThreadUpsert 999999999 "t1" [msgEarly, msgLate] = some rec
      ∧ ([msgEarly, msgLate].length = 1 → rec.responseTime = none)
      ∧ (1 < [msgEarly, msgLate].length → ∃ tmin tmax,
          (∃ m ∈ [msgEarly, msgLate], m.timestamp = tmin)
          ∧ (∃ m ∈ [msgEarly, msgLate], m.timestamp = tmax)
          ∧ (∀ m ∈ [msgEarly, msgLate], tmin ≤ m.timestamp ∧ m.timestamp ≤ tmax)
          ∧ rec.responseTime = some (Int.fdiv (tmax - tmin) (1000 * 60))) :=
  processThreads_responseTime 999999999 [msgEarly, msgLate] "t1" [msgEarly, msgLate]
    (by decide)

/-- C6 witness. The same concrete group resolves iff its last (sent) message is
more than 24 hours old. -/
theorem processThreads_resolved_witness :
    ∃ rec lastM, buildThreadUpsert 999999999 "t1" [msgEarly, msgLate] = some rec
      ∧ (sortByTimestamp [msgEarly, msgLate]).getLast? = some lastM
      ∧ lastM ∈ [msgEarly, msgLate]
      ∧ (∀ m ∈ [msgEarly, msgLate], m.timestamp ≤ lastM.timestamp)
      ∧ (rec.isResolved = true ↔
          lastM.isSent = true ∧ 24 * 60 * 60 * 1000 < 999999999 - lastM.timestamp) :=
  processThreads_resolved 999999999 [msgEarly, msgLate] "t1" [msgEarly, msgLate]
    (by decide)

/-! Section: Aggregation statistics (`AggregationService`, part_001) -/

/-- A persisted `Thread` row as the aggregation service sees it.  `id` is the database primary key
of the row, `threadId` the provider thread id — two distinct fields (the
upsert in `processThreads` is keyed by `threadId_organizationId` while
`updateThreadMetrics` addresses rows by `id`).  `responseTime` is a float in the
schema, modelled as `ℚ`. -/
structure ThreadRow where
  id : String
  threadId : String
  mailboxId : String
  organizationId : String
  messageCount : Nat
  lastMessageAt : Int
  responseTime : Option ℚ
  isResolved : Bool
deriving DecidableEq

/-- The sample feeding `getResponseTimeAggregates` (part_001, lines 256–271): thread
rows of the mailbox whose `lastMessageAt` lies in the window and whose
`responseTime` is non-null, projected to those response times. -/
def responseTimeSample (threads : List ThreadRow) (mailboxId : String)
    (startDate endDate : Int) : List ℚ :=
  (threads.filter (fun t =>
      t.mailboxId == mailboxId && decide (startDate ≤ t.lastMessageAt)
        && decide (t.lastMessageAt ≤ endDate) && t.responseTime.isSome)).filterMap
    (fun t => t.responseTime)

structure ResponseTimeAggregates where
  average : ℚ
  median : ℚ
  p90 : ℚ
deriving DecidableEq

/-- Model of `AggregationService.getResponseTimeAggregates` (part_001, lines 251–285): all
zeros on an empty sample; otherwise sort ascending (in place — the `average` sum is
unaffected by order), `average = sum / n`, `median = sorted[Math.floor(n / 2)]`,
`p90 = sorted[Math.floor(n * 0.9)] || 0`.  `Math.floor(n * 0.9)` equals `n * 9 / 10`
in exact arithmetic for every length `n` (the IEEE product `n * 0.9` errs from
`9n/10` by far less than the distance to the next lower integer), and the `|| 0`
fallback is modelled by `getD _ 0`. -/
def getResponseTimeAggregates (threads : List ThreadRow) (mailboxId : String)
    (startDate endDate : Int) : ResponseTimeAggregates :=
  let responseTimes := responseTimeSample threads mailboxId startDate endDate
  if responseTimes.length = 0 then
    { average := 0, median := 0, p90 := 0 }
  else
    let sorted := List.insertionSort (· ≤ ·) responseTimes
    let average := responseTimes.sum / (responseTimes.length : ℚ)
    let median := sorted.getD (sorted.length / 2) 0
    let p90Index := sorted.length * 9 / 10
    let p90 := sorted.getD p90Index 0
    { average := average, median := median, p90 := p90 }

/-- C7. The response-time aggregates are all zero on an empty sample, and on a
nonempty sample the average is the arithmetic mean, the median the element at index
`⌊n/2⌋` and the p90 the element at index `⌊n·0.9⌋` of the ascending-sorted sample
(the sort shown sorted and a permutation of the sample). -/
theorem responseTime_aggregates_spec (threads : List ThreadRow) (mailboxId : String)
    (startDate endDate : Int) :
    (responseTimeSample threads mailboxId startDate endDate = [] →
      getResponseTimeAggregates threads mailboxId startDate endDate = ⟨0, 0, 0⟩)
    ∧ (∀ sample, responseTimeSample threads mailboxId startDate endDate = sample →
        sample ≠ [] →
        (getResponseTimeAggregates threads mailboxId startDate endDate).average
            * (sample.length : ℚ) = sample.sum
        ∧ (getResponseTimeAggregates threads mailboxId startDate endDate).median
            = (List.insertionSort (· ≤ ·) sample).getD (sample.length / 2) 0
        ∧ (getResponseTimeAggregates threads mailboxId startDate endDate).p90
            = (List.insertionSort (· ≤ ·) sample).getD (sample.length * 9 / 10) 0
        ∧ List.Sorted (· ≤ ·) (List.insertionSort (· ≤ ·) sample)
        ∧ (List.insertionSort (· ≤ ·) sample).Perm sample) := by
  constructor
  · intro hempty
    unfold getResponseTimeAggregates
    rw [hempty]
    rfl
  · intro sample hsample hne
    have hlen0 : ¬ sample.length = 0 := fun h => hne (List.length_eq_zero.mp h)
    have hsortlen : (List.insertionSort (· ≤ ·) sample).length = sample.length :=
      (List.perm_insertionSort _ sample).length_eq
    unfold getResponseTimeAggregates
    rw [hsample, if_neg hlen0]
    refine ⟨?_, ?_, ?_, List.sorted_insertionSort _ sample, List.perm_insertionSort _ sample⟩
    · show sample.sum / (sample.length : ℚ) * (sample.length : ℚ) = sample.sum
      have : (sample.length : ℚ) ≠ 0 := by
        exact_mod_cast hlen0
      field_simp
    · show (List.insertionSort (· ≤ ·) sample).getD
          ((List.insertionSort (· ≤ ·) sample).length / 2) 0 = _
      rw [hsortlen]
    · show (List.insertionSort (· ≤ ·) sample).getD
          ((List.insertionSort (· ≤ ·) sample).length * 9 / 10) 0 = _
      rw [hsortlen]

/-- Five thread rows of mailbox `mb1` whose response times are 10, 20, 30, 40 and 50
minutes, all inside the window `[0, 1000]`. -/
def rtThreads : List ThreadRow :=
  [ { id := "t1", threadId := "p1", mailboxId := "mb1", organizationId := "o1",
      messageCount := 2, lastMessageAt := 10, responseTime := some 30, isResolved := false },
    { id := "t2", threadId := "p2", mailboxId := "mb1", organizationId := "o1",
      messageCount := 2, lastMessageAt := 20, responseTime := some 10, isResolved := false },
    { id := "t3", threadId := "p3", mailboxId := "mb1", organizationId := "o1",
      messageCount := 2, lastMessageAt := 30, responseTime := some 50, isResolved := false },
    { id := "t4", threadId := "p4", mailboxId := "mb1", organizationId := "o1",
      messageCount := 2, lastMessageAt := 40, responseTime := some 20, isResolved := false },
    { id := "t5", threadId := "p5", mailboxId := "mb1", organizationId := "o1",
      messageCount := 2, lastMessageAt := 50, responseTime := some 40, isResolved := false } ]

/-- C7 witness. On the sample `[30, 10, 50, 20, 40]` (sorted: `[10, 20, 30, 40,
50]`) the aggregates are median 30, p90 50 (index `⌊5·0.9⌋ = 4`), mean 30. -/
theorem responseTime_aggregates_spec_witness :
    (getResponseTimeAggregates rtThreads "mb1" 0 1000).median = 30
    ∧ (getResponseTimeAggregates rtThreads "mb1" 0 1000).p90 = 50
    ∧ (getResponseTimeAggregates rtThreads "mb1" 0 1000).average * 5 = 150 := by
  have h := (responseTime_aggregates_spec rtThreads "mb1" 0 1000).2
    [30, 10, 50, 20, 40] (by decide) (by decide)
  refine ⟨?_, ?_, ?_⟩
  · rw [h.2.1]
    decide
  · rw [h.2.2.1]
    decide
  · have ha := h.1
    norm_num at ha
    exact_mod_cast ha

/-! Section: C2: organization-wide Contact and Thread rollups
(`updateContactMetrics` / `updateThreadMetrics`, part_001, lines 354–449) -/

/-- A persisted `Message` row, restricted to the fields the rollups read.
`threadId` stores the *provider* thread id (set from the fetched message in
`processMessages`). -/
structure MessageRow where
  messageId : String
  threadId : String
  fromEmail : String
  toEmails : List String
  timestamp : Int
  isSent : Bool
  mailboxId : String
  organizationId : String
deriving DecidableEq

/-- A persisted `Contact` row, restricted to the fields the rollup touches. -/
structure ContactRow where
  id : String
  email : String
  organizationId : String
  messageCount : Nat
  responseRate : ℚ
  lastContactAt : Int
deriving DecidableEq

/-- The `message.count` filter of `updateContactMetrics` (part_001, lines 361–373):
organization rows in the window whose `fromEmail` is the contact or whose
`toEmails` has the contact. -/
def msgMatchesContactWindow (organizationId email : String) (startDate endDate : Int)
    (m : MessageRow) : Bool :=
  m.organizationId == organizationId
    && (m.fromEmail == email || m.toEmails.contains email)
    && decide (startDate ≤ m.timestamp) && decide (m.timestamp ≤ endDate)

/-- The `responseCount` filter (part_001, lines 375–385): sent rows from the
address of the contact, in the window. -/
def msgIsContactResponse (organizationId email : String) (startDate endDate : Int)
    (m : MessageRow) : Bool :=
  m.organizationId == organizationId && m.fromEmail == email && m.isSent
    && decide (startDate ≤ m.timestamp) && decide (m.timestamp ≤ endDate)

/-- Model of `AggregationService.updateContactMetrics` (part_001, lines 354–398): for every
contact of the organization, count the window messages touching the contact and the
window responses from the contact, then store
`messageCount := contact.messageCount + messageCount` (the *stored* count plus the
window delta), the re-derived `responseRate`, and `lastContactAt := endDate`. -/
def updateContactMetrics (msgs : List MessageRow) (organizationId : String)
    (startDate endDate : Int) (contacts : List ContactRow) : List ContactRow :=
  contacts.map (fun contact =>
    if contact.organizationId == organizationId then
      let messageCount := (msgs.filter
        (msgMatchesContactWindow organizationId contact.email startDate endDate)).length
      let responseCount := (msgs.filter
        (msgIsContactResponse organizationId contact.email startDate endDate)).length
      let responseRate : ℚ :=
        if messageCount > 0 then (responseCount : ℚ) / (messageCount : ℚ) else 0
      { contact with
        messageCount := contact.messageCount + messageCount
        responseRate := responseRate
        lastContactAt := endDate }
    else contact)

/-- The per-thread message query of `updateThreadMetrics` (part_001, lines 413–428):
rows whose `threadId` *field* equals the primary `id` of the thread row (not its
provider `threadId`), within the organization. -/
def threadMessageRows (msgs : List MessageRow) (organizationId : String)
    (t : ThreadRow) : List MessageRow :=
  msgs.filter (fun m => m.threadId == t.id && m.organizationId == organizationId)

/-- Model of the query option `orderBy timestamp asc`. -/
def sortRowsByTimestamp (msgs : List MessageRow) : List MessageRow :=
  List.insertionSort (keyLe MessageRow.timestamp) msgs

/-- The loop of part_001, lines 430–437: minute-differences between consecutive
timestamps. -/
def consecutiveGapMinutes : List Int → List ℚ
  | a :: b :: rest => ((b - a : Int) : ℚ) / (1000 * 60) :: consecutiveGapMinutes (b :: rest)
  | _ => []

/-- Model of `AggregationService.updateThreadMetrics` (part_001, lines 400–449): for every
organization thread whose `lastMessageAt` lies in the window, re-derive
`messageCount` from the current matching `Message` rows and set `responseTime` to
the mean consecutive-gap in minutes (`null` when fewer than two rows match). -/
def updateThreadMetrics (msgs : List MessageRow) (organizationId : String)
    (startDate endDate : Int) (threads : List ThreadRow) : List ThreadRow :=
  threads.map (fun thread =>
    if thread.organizationId == organizationId
        && decide (startDate ≤ thread.lastMessageAt)
        && decide (thread.lastMessageAt ≤ endDate) then
      let messageCount := (threadMessageRows msgs organizationId thread).length
      let gaps := consecutiveGapMinutes
        ((sortRowsByTimestamp (threadMessageRows msgs organizationId thread)).map
          (fun m => m.timestamp))
      let avgResponseTime : Option ℚ :=
        if gaps.length > 0 then some (gaps.sum / (gaps.length : ℚ)) else none
      { thread with messageCount := messageCount, responseTime := avgResponseTime }
    else thread)

/-- A contact with 5 previously stored messages. -/
def contactCx : ContactRow :=
  { id := "c1"
    email := "alice@example.com"
    organizationId := "o1"
    messageCount := 5
    responseRate := 0
    lastContactAt := 0 }

/-- The single current `Message` row matching that contact, inside the window. -/
def msgCx : MessageRow :=
  { messageId := "m1"
    threadId := "pt1"
    fromEmail := "alice@example.com"
    toEmails := ["me@example.com"]
    timestamp := 10
    isSent := false
    mailboxId := "mb1"
    organizationId := "o1" }

/-- C2 counterexample. With one stored matching `Message` row and a contact
whose stored `messageCount` is 5, the rollup stores 6 = 5 + 1 — the previously
stored count plus the newly counted window delta — and not the count (1) re-derived
from the current `Message` rows, contradicting the claim. -/
theorem contact_messageCount_incremented_not_rederived :
    (updateContactMetrics [msgCx] "o1" 0 100 [contactCx]).map ContactRow.messageCount
        = [contactCx.messageCount
            + ([msgCx].filter (msgMatchesContactWindow "o1" "alice@example.com" 0 100)).length]
    ∧ ([msgCx].filter (msgMatchesContactWindow "o1" "alice@example.com" 0 100)).length = 1
    ∧ contactCx.messageCount = 5
    ∧ (updateContactMetrics [msgCx] "o1" 0 100 [contactCx]).map ContactRow.messageCount
        ≠ [([msgCx].filter (msgMatchesContactWindow "o1" "alice@example.com" 0 100)).length] := by
  refine ⟨by decide, by decide, rfl, by decide⟩

theorem consecutiveGapMinutes_length : ∀ l : List Int,
    (consecutiveGapMinutes l).length = l.length - 1
  | [] => rfl
  | [_] => rfl
  | a :: b :: rest => by
    have ih := consecutiveGapMinutes_length (b :: rest)
    simp only [consecutiveGapMinutes, List.length_cons, ih]
    omega

/-- The gap sum telescopes: total response time is the distance between the first
and last timestamps. -/
theorem consecutiveGapMinutes_sum : ∀ (l : List Int) (a z : Int),
    l.head? = some a → l.getLast? = some z →
    (consecutiveGapMinutes l).sum = ((z - a : Int) : ℚ) / (1000 * 60)
  | [], a, z, ha, _ => by simp at ha
  | [x], a, z, ha, hz => by
    have h1 : x = a := by simpa using ha
    have h2 : x = z := by simpa using hz
    subst h1
    rw [← h2]
    simp [consecutiveGapMinutes]
  | x :: y :: rest, a, z, ha, hz => by
    have h1 : x = a := by simpa using ha
    rw [List.getLast?_cons_cons] at hz
    have ih := consecutiveGapMinutes_sum (y :: rest) y z rfl hz
    simp only [consecutiveGapMinutes, List.sum_cons, ih]
    subst h1
    push_cast
    ring

/-- C2 amended. After the organization-wide rollup: every in-window Thread
row has `messageCount` re-derived as the number of current `Message` rows whose
`threadId` field equals the primary row `id`, and `responseTime` re-derived as the mean
minute-gap between consecutive such rows (null with fewer than two rows, and
`((last − first)/1 min) / (n − 1)` by telescoping otherwise); every Contact of the
organization gets `responseRate` re-derived from the window counts and
`lastContactAt := endDate`, but its stored `messageCount` becomes the *previously
stored count plus the newly counted window delta* — an increment, not a
re-derivation from the current rows. -/
theorem organization_rollup_rederivation (msgs : List MessageRow)
    (organizationId : String) (startDate endDate : Int)
    (contacts : List ContactRow) (threads : List ThreadRow) :
    List.Forall₂ (fun c c2 =>
        c.organizationId = organizationId →
          c2.messageCount = c.messageCount + (msgs.filter
              (msgMatchesContactWindow organizationId c.email startDate endDate)).length
          ∧ c2.responseRate = (if 0 < (msgs.filter
                (msgMatchesContactWindow organizationId c.email startDate endDate)).length
              then ((msgs.filter
                  (msgIsContactResponse organizationId c.email startDate endDate)).length : ℚ)
                / ((msgs.filter
                  (msgMatchesContactWindow organizationId c.email startDate endDate)).length : ℚ)
              else 0)
          ∧ c2.lastContactAt = endDate)
      contacts (updateContactMetrics msgs organizationId startDate endDate contacts)
    ∧ List.Forall₂ (fun t t2 =>
        (t.organizationId = organizationId ∧ startDate ≤ t.lastMessageAt
            ∧ t.lastMessageAt ≤ endDate) →
          t2.messageCount = (threadMessageRows msgs organizationId t).length
          ∧ ((threadMessageRows msgs organizationId t).length ≤ 1 →
              t2.responseTime = none)
          ∧ (∀ first lastR,
              (sortRowsByTimestamp (threadMessageRows msgs organizationId t)).head?
                  = some first →
              (sortRowsByTimestamp (threadMessageRows msgs organizationId t)).getLast?
                  = some lastR →
              2 ≤ (threadMessageRows msgs organizationId t).length →
              t2.responseTime = some
                ((((lastR.timestamp - first.timestamp : Int) : ℚ) / (1000 * 60))
                  / (((threadMessageRows msgs organizationId t).length - 1 : Nat) : ℚ))))
      threads (updateThreadMetrics msgs organizationId startDate endDate threads) := by
  constructor
  · refine forall₂_self_map _ _ ?_ contacts
    intro c
    by_cases hc : (c.organizationId == organizationId) = true
    · rw [if_pos hc]
      exact fun _ => ⟨rfl, rfl, rfl⟩
    · rw [if_neg hc]
      intro hOrg
      exact absurd (beq_iff_eq.mpr hOrg) hc
  · refine forall₂_self_map _ _ ?_ threads
    intro t
    by_cases hw : (t.organizationId == organizationId
        && decide (startDate ≤ t.lastMessageAt) && decide (t.lastMessageAt ≤ endDate)) = true
    · rw [if_pos hw]
      intro _
      have hrowlen : (sortRowsByTimestamp (threadMessageRows msgs organizationId t)).length
          = (threadMessageRows msgs organizationId t).length :=
        (List.perm_insertionSort _ _).length_eq
      have hglen : (consecutiveGapMinutes
            ((sortRowsByTimestamp (threadMessageRows msgs organizationId t)).map
              (fun m => m.timestamp))).length
          = (threadMessageRows msgs organizationId t).length - 1 := by
        rw [consecutiveGapMinutes_length, List.length_map, hrowlen]
      refine ⟨rfl, ?_, ?_⟩
      · intro hle
        show (if (consecutiveGapMinutes
              ((sortRowsByTimestamp (threadMessageRows msgs organizationId t)).map
                (fun m => m.timestamp))).length > 0
            then some ((consecutiveGapMinutes
              ((sortRowsByTimestamp (threadMessageRows msgs organizationId t)).map
                (fun m => m.timestamp))).sum
              / ((consecutiveGapMinutes
                ((sortRowsByTimestamp (threadMessageRows msgs organizationId t)).map
                  (fun m => m.timestamp))).length : ℚ))
            else none) = none
        have hnot : ¬ (consecutiveGapMinutes
            ((sortRowsByTimestamp (threadMessageRows msgs organizationId t)).map
              (fun m => m.timestamp))).length > 0 := by
          rw [hglen]
          omega
        rw [if_neg hnot]
      · intro first lastR hfirst hlast h2le
        have htsh : ((sortRowsByTimestamp (threadMessageRows msgs organizationId t)).map
            (fun m => m.timestamp)).head? = some first.timestamp := by
          rw [List.head?_map, hfirst]
          rfl
        have htsl : ((sortRowsByTimestamp (threadMessageRows msgs organizationId t)).map
            (fun m => m.timestamp)).getLast? = some lastR.timestamp := by
          rw [List.getLast?_map, hlast]
          rfl
        have hsum := consecutiveGapMinutes_sum
          ((sortRowsByTimestamp (threadMessageRows msgs organizationId t)).map
            (fun m => m.timestamp)) first.timestamp lastR.timestamp htsh htsl
        have hpos : (consecutiveGapMinutes
            ((sortRowsByTimestamp (threadMessageRows msgs organizationId t)).map
              (fun m => m.timestamp))).length > 0 := by
          rw [hglen]
          omega
        show (if (consecutiveGapMinutes
              ((sortRowsByTimestamp (threadMessageRows msgs organizationId t)).map
                (fun m => m.timestamp))).length > 0
            then some ((consecutiveGapMinutes
              ((sortRowsByTimestamp (threadMessageRows msgs organizationId t)).map
                (fun m => m.timestamp))).sum
              / ((consecutiveGapMinutes
                ((sortRowsByTimestamp (threadMessageRows msgs organizationId t)).map
                  (fun m => m.timestamp))).length : ℚ))
            else none)
          = some ((((lastR.timestamp - first.timestamp : Int) : ℚ) / (1000 * 60))
              / (((threadMessageRows msgs organizationId t).length - 1 : Nat) : ℚ))
        rw [if_pos hpos, hsum, hglen]
    · rw [if_neg hw]
      rintro ⟨h1, h2, h3⟩
      refine absurd ?_ hw
      simp [h1, h2, h3]

/-- The thread row addressed by the rollup; its primary `id` is matched against the
`threadId` field of the `Message` rows. -/
def threadCx : ThreadRow :=
  { id := "pt1"
    threadId := "pt1"
    mailboxId := "mb1"
    organizationId := "o1"
    messageCount := 0
    lastMessageAt := 50
    responseTime := none
    isResolved := false }

/-- A second row of the same thread, 120 000 ms (2 minutes) after `msgCx`. -/
def msgCx2 : MessageRow :=
  { messageId := "m2"
    threadId := "pt1"
    fromEmail := "me@example.com"
    toEmails := ["alice@example.com"]
    timestamp := 120010
    isSent := true
    mailboxId := "mb1"
    organizationId := "o1" }

/-- C2 amended witness. The rollup characterisation instantiated at two
concrete message rows, one contact and one thread row. -/
theorem organization_rollup_rederivation_witness :
    List.Forall₂ (fun c c2 =>
        c.organizationId = "o1" →
          c2.messageCount = c.messageCount + ([msgCx, msgCx2].filter
              (msgMatchesContactWindow "o1" c.email 0 100)).length
          ∧ c2.responseRate = (if 0 < ([msgCx, msgCx2].filter
                (msgMatchesContactWindow "o1" c.email 0 100)).length
              then (([msgCx, msgCx2].filter
                  (msgIsContactResponse "o1" c.email 0 100)).length : ℚ)
                / (([msgCx, msgCx2].filter
                  (msgMatchesContactWindow "o1" c.email 0 100)).length : ℚ)
              else 0)
          ∧ c2.lastContactAt = 100)
      [contactCx] (updateContactMetrics [msgCx, msgCx2] "o1" 0 100 [contactCx])
    ∧ List.Forall₂ (fun t t2 =>
        (t.organizationId = "o1" ∧ 0 ≤ t.lastMessageAt ∧ t.lastMessageAt ≤ 100) →
          t2.messageCount = (threadMessageRows [msgCx, msgCx2] "o1" t).length
          ∧ ((threadMessageRows [msgCx, msgCx2] "o1" t).length ≤ 1 →
              t2.responseTime = none)
          ∧ (∀ first lastR,
              (sortRowsByTimestamp (threadMessageRows [msgCx, msgCx2] "o1" t)).head?
                  = some first →
              (sortRowsByTimestamp (threadMessageRows [msgCx, msgCx2] "o1" t)).getLast?
                  = some lastR →
              2 ≤ (threadMessageRows [msgCx, msgCx2] "o1" t).length →
              t2.responseTime = some
                ((((lastR.timestamp - first.timestamp : Int) : ℚ) / (1000 * 60))
                  / (((threadMessageRows [msgCx, msgCx2] "o1" t).length - 1 : Nat) : ℚ))))
      [threadCx] (updateThreadMetrics [msgCx, msgCx2] "o1" 0 100 [threadCx]) :=
  organization_rollup_rederivation [msgCx, msgCx2] "o1" 0 100 [contactCx] [threadCx]
